import Mathlib

/-!
Shallow embedding of `openbackdoor/trainers/trainer.py` (class `Trainer`):
the gradient-accumulation epoch loop (`train_one_epoch`), the checkpoint and
evaluation logic of `train`, the dev-split selection, the hidden-state
accumulation for visualization, and `compute_hidden`.

Losses and dev scores (Python floats) are modelled as rationals. The
side-effecting parts of `train` (`torch.save`, `np.save`, `plt.savefig`,
`torch.load`) are modelled as an explicit trace of file-write events, and
Python exceptions as `Except String`.
-/

/-- Lines 114-117 of `Trainer.train_one_epoch`: after the forward pass, if
`gradient_accumulation_steps > 1` the batch loss is divided by the
accumulation factor, otherwise `loss.backward()` is called.  Returns the
(possibly rescaled) loss together with whether the backward pass was invoked
for this batch. -/
def batch_backward (gas : ℕ) (loss : ℚ) : ℚ × Bool :=
  if gas > 1 then (loss / (gas : ℚ), false) else (loss, true)

/-- Lines 106-127 of `Trainer.train_one_epoch`, with the epoch iterator
abstracted as the list of per-batch losses produced by the model and the loss
function (`step` is the batch index from `enumerate`).  At every batch the
loss is rescaled / backpropagated by `batch_backward`; exactly at
optimizer-step batches, i.e. when `(step + 1) % gradient_accumulation_steps
== 0`, the current (already rescaled) loss is added to `total_loss`; the
function returns `total_loss / len(epoch_iterator)`. -/
def train_one_epoch (gas : ℕ) (losses : List ℚ) : ℚ :=
  let total_loss := losses.enum.foldl
    (fun total sb =>
      if (sb.1 + 1) % gas == 0 then total + (batch_backward gas sb.2).1 else total)
    0
  total_loss / (losses.length : ℚ)

/-- The sum of the rescaled losses of the optimizer-step batches of an epoch:
the batches whose 1-based index is a multiple of the accumulation factor,
each contributing its loss as rescaled by `batch_backward`. -/
def step_loss_sum (gas : ℕ) (losses : List ℚ) : ℚ :=
  ((losses.enum.filter (fun sb => (sb.1 + 1) % gas == 0)).map
      (fun sb => (batch_backward gas sb.2).1)).sum

lemma epoch_foldl_eq_step_sum (gas : ℕ) :
    ∀ (l : List (ℕ × ℚ)) (init : ℚ),
      l.foldl
          (fun total sb =>
            if (sb.1 + 1) % gas == 0 then total + (batch_backward gas sb.2).1 else total)
          init
        = init
          + ((l.filter (fun sb => (sb.1 + 1) % gas == 0)).map
              (fun sb => (batch_backward gas sb.2).1)).sum := by
  intro l
  induction l with
  | nil => intro init; simp
  | cons a t ih =>
      intro init
      by_cases h : ((a.1 + 1) % gas == 0) = true
      · simp only [List.foldl_cons, List.filter_cons, h, if_pos, List.map_cons, List.sum_cons]
        rw [ih]
        ring
      · simp only [List.foldl_cons, List.filter_cons, h, if_neg]
        exact ih init

/-- C1: in `train_one_epoch`, for every batch, if
`gradient_accumulation_steps > 1` the batch loss is divided by the
accumulation factor and the backward pass is not invoked; the backward pass
is invoked exactly when `gradient_accumulation_steps == 1`. -/
theorem backward_only_in_nonaccumulating_branch (gas : ℕ) (loss : ℚ) (h : 1 ≤ gas) :
    (gas > 1 → batch_backward gas loss = (loss / (gas : ℚ), false)) ∧
    ((batch_backward gas loss).2 = true ↔ gas = 1) := by
  constructor
  · intro hg
    simp [batch_backward, hg]
  · unfold batch_backward
    rcases Nat.lt_or_ge 1 gas with hg | hg
    · rw [if_pos hg]
      simp only [Bool.false_eq_true, false_iff]
      omega
    · have hg1 : gas = 1 := Nat.le_antisymm hg h
      rw [if_neg (by omega)]
      simp [hg1]

theorem backward_only_in_nonaccumulating_branch_witness :
    1 ≤ 2 ∧
    ((2 > 1 → batch_backward 2 3 = ((3 : ℚ) / ((2 : ℕ) : ℚ), false)) ∧
      ((batch_backward 2 3).2 = true ↔ 2 = 1)) :=
  ⟨by decide, backward_only_in_nonaccumulating_branch 2 3 (by decide)⟩

/-- C2: for every epoch iterator with at least one batch, `train_one_epoch`
returns the sum of the losses accumulated at optimizer-step batches (each
already divided by the accumulation factor when it exceeds 1) divided by the
total number of batches in the iterator. -/
theorem train_one_epoch_denominator (gas : ℕ) (losses : List ℚ)
    (_h : 0 < losses.length) :
    train_one_epoch gas losses = step_loss_sum gas losses / (losses.length : ℚ) := by
  unfold train_one_epoch step_loss_sum
  rw [epoch_foldl_eq_step_sum gas losses.enum 0, zero_add]

theorem train_one_epoch_denominator_witness :
    0 < ([1, 2, 3, 4] : List ℚ).length ∧
    train_one_epoch 2 [1, 2, 3, 4]
      = step_loss_sum 2 [1, 2, 3, 4] / ((([1, 2, 3, 4] : List ℚ).length : ℕ) : ℚ) :=
  ⟨by decide, train_one_epoch_denominator 2 [1, 2, 3, 4] (by decide)⟩

/-- A file write performed by `Trainer.train`: a checkpoint file
`<name>.ckpt` under the run's save directory (`torch.save`, lines 175 and
188), a `.npy` array file under `./hidden_states/...` (`np.save`, lines
181-183), or a `.png` image under `./visualization/...` (`plt.savefig` in
`Trainer.visualize`, line 308). -/
inductive FileWrite where
  | ckptFile (name : String)
  | npyFile (name : String)
  | pngFile (epoch : ℕ)
  deriving DecidableEq

/-- Whether a file write is a checkpoint-file write (as opposed to a write
under `./hidden_states` or `./visualization`). -/
def FileWrite.isCkpt : FileWrite → Bool
  | .ckptFile _ => true
  | _ => false

/-- The mutable state of `Trainer.train`'s epoch loop that the checkpoint
logic touches: `best_dev_score` (initialised to 0 at line 150) and the trace
of file writes performed so far. -/
structure TrainState where
  bestDevScore : ℚ
  writes : List FileWrite
  deriving DecidableEq

/-- The state at line 150 of `Trainer.train`: `best_dev_score = 0`, nothing
written yet (the save directory was freshly created in the constructor). -/
def init_state : TrainState := { bestDevScore := 0, writes := [] }

/-- Lines 172-175 of `Trainer.train`, one epoch's checkpoint logic: if the
epoch's `dev_score` strictly exceeds `best_dev_score`, the best score is
updated and, when `self.ckpt == "best"`, the model is saved to
`model_checkpoint(self.ckpt)`. -/
def epoch_step (ckpt : String) (st : TrainState) (dev_score : ℚ) : TrainState :=
  if st.bestDevScore < dev_score then
    { bestDevScore := dev_score,
      writes := st.writes ++ (if ckpt == "best" then [FileWrite.ckptFile ckpt] else []) }
  else st

/-- The epoch loop of `Trainer.train` (lines 162-175) restricted to its
checkpoint logic, folding `epoch_step` over the per-epoch dev scores
returned by `evaluate`. -/
def epoch_loop (ckpt : String) (scores : List ℚ) (st : TrainState) : TrainState :=
  scores.foldl (epoch_step ckpt) st

/-- The trace of file writes of one `Trainer.train` call with
`self.visualize_flag` false: lines 150-188 with the visualization blocks of
lines 152-160 and 177-185 skipped, i.e. the epoch loop's best-checkpoint
writes followed by the final checkpoint write when `self.ckpt == "last"`
(lines 187-188).  `scores` lists the dev score of each epoch, so
`scores.length` is the number of epochs.  A visualize-enabled call is not
modelled by this trace: on any nonempty training split it raises
`AttributeError` inside the baseline `compute_hidden` pass of line 160,
before the epoch loop and before any write (see `compute_hidden` and
`train_hidden_history` below). -/
def train_writes (ckpt : String) (scores : List ℚ) : List FileWrite :=
  (epoch_loop ckpt scores init_state).writes
    ++ (if ckpt == "last" then [FileWrite.ckptFile ckpt] else [])

/-- Lines 191-192 of `Trainer.train` (visualize flag false): after the loop,
`torch.load` is unconditionally attempted on `model_checkpoint(self.ckpt)`.
The run's save directory is freshly created in the constructor (line 61), so
the file exists iff this run wrote it; loading a missing file raises
`FileNotFoundError`, otherwise `train` returns normally with the trace. -/
def train_run (ckpt : String) (scores : List ℚ) : Except String (List FileWrite) :=
  let w := train_writes ckpt scores
  if FileWrite.ckptFile ckpt ∈ w then Except.ok w else Except.error "FileNotFoundError"

/-- Whether the best-checkpoint save of lines 174-175 fires at epoch `k`
(0-based) of a run with per-epoch dev scores `scores` under policy "best":
the write trace strictly grows from the state after `k` epochs to the state
after `k + 1` epochs. -/
def best_write_at (scores : List ℚ) (k : ℕ) : Prop :=
  (epoch_loop "best" (scores.take k) init_state).writes.length
    < (epoch_loop "best" (scores.take (k + 1)) init_state).writes.length

lemma epoch_step_bestDevScore (ckpt : String) (st : TrainState) (sc : ℚ) :
    (epoch_step ckpt st sc).bestDevScore = max st.bestDevScore sc := by
  by_cases h : st.bestDevScore < sc
  · simp [epoch_step, h, max_eq_right (le_of_lt h)]
  · simp [epoch_step, h, max_eq_left (not_lt.mp h)]

lemma epoch_loop_bestDevScore (ckpt : String) :
    ∀ (scores : List ℚ) (st : TrainState),
      (epoch_loop ckpt scores st).bestDevScore = scores.foldl max st.bestDevScore := by
  intro scores
  induction scores with
  | nil => intro st; rfl
  | cons s t ih =>
      intro st
      show (epoch_loop ckpt t (epoch_step ckpt st s)).bestDevScore = _
      rw [ih, epoch_step_bestDevScore]
      rfl

lemma epoch_step_writes_length (st : TrainState) (sc : ℚ) :
    (epoch_step "best" st sc).writes.length
      = st.writes.length + (if st.bestDevScore < sc then 1 else 0) := by
  by_cases h : st.bestDevScore < sc <;> simp [epoch_step, h]

lemma le_foldl_max (l : List ℚ) : ∀ i : ℚ, i ≤ l.foldl max i := by
  induction l with
  | nil => intro i; exact le_refl i
  | cons a t ih => intro i; exact le_trans (le_max_left i a) (ih (max i a))

lemma mem_le_foldl_max (l : List ℚ) : ∀ (i a : ℚ), a ∈ l → a ≤ l.foldl max i := by
  induction l with
  | nil => intro i a h; cases h
  | cons b t ih =>
      intro i a h
      rcases List.mem_cons.mp h with rfl | h
      · exact le_trans (le_max_right i a) (le_foldl_max t (max i a))
      · exact ih (max i b) a h

lemma foldl_max_lt (l : List ℚ) :
    ∀ (i c : ℚ), i < c → (∀ a ∈ l, a < c) → l.foldl max i < c := by
  induction l with
  | nil => intro i c hi _; exact hi
  | cons b t ih =>
      intro i c hi h
      exact ih (max i b) c (max_lt hi (h b (List.mem_cons_self b t)))
        (fun a ha => h a (List.mem_cons_of_mem b ha))

/-- C4: within one `train` call, `best_dev_score` is monotonically
non-decreasing across the epoch loop: its value after epoch `k + 1` is at
least its value after epoch `k`, for any checkpoint policy and any dev
scores. -/
theorem best_dev_score_monotone (ckpt : String) (scores : List ℚ) (k : ℕ) :
    (epoch_loop ckpt (scores.take k) init_state).bestDevScore
      ≤ (epoch_loop ckpt (scores.take (k + 1)) init_state).bestDevScore := by
  rcases Nat.lt_or_ge k scores.length with hk | hk
  · rw [epoch_loop_bestDevScore, epoch_loop_bestDevScore,
      ← List.take_concat_get' scores k hk, List.foldl_append]
    exact le_foldl_max _ _
  · rw [List.take_of_length_le hk, List.take_of_length_le (le_trans hk (Nat.le_succ k))]

/-- C3 counterexample: with a single epoch whose dev score is 0, the claim's
criterion — the epoch's dev score strictly exceeds every earlier epoch's dev
score, vacuously true for the first epoch — predicts a best-checkpoint
write, but the code compares against the running `best_dev_score`
initialised to 0 at line 150, `0 > 0` fails, and nothing is written. -/
theorem best_ckpt_write_counterexample :
    ¬ (best_write_at [(0 : ℚ)] 0 ↔
        ∀ j, j < 0 → ([(0 : ℚ)] : List ℚ).getD j 0 < ([(0 : ℚ)] : List ℚ).getD 0 0) := by
  intro hiff
  have hw : best_write_at [(0 : ℚ)] 0 :=
    hiff.mpr (fun j hj => absurd hj (Nat.not_lt_zero j))
  have hnot : ¬ best_write_at [(0 : ℚ)] 0 := by
    unfold best_write_at
    simp [epoch_loop, epoch_step, init_state]
  exact hnot hw

/-- C3 amended: within one `train` call under checkpoint policy "best", the
best checkpoint file is written at epoch `k` iff that epoch's dev score
strictly exceeds 0 (the initial `best_dev_score` of line 150) as well as
every earlier epoch's dev score. -/
theorem best_ckpt_write_iff_amended (scores : List ℚ) (k : ℕ) (hk : k < scores.length) :
    best_write_at scores k ↔
      (0 < scores.getD k 0 ∧ ∀ j, j < k → scores.getD j 0 < scores.getD k 0) := by
  have hstep :
      epoch_loop "best" (scores.take (k + 1)) init_state
        = epoch_step "best" (epoch_loop "best" (scores.take k) init_state) scores[k] := by
    unfold epoch_loop
    rw [← List.take_concat_get' scores k hk, List.foldl_append]
    rfl
  have hbest :
      (epoch_loop "best" (scores.take k) init_state).bestDevScore
        = (scores.take k).foldl max 0 :=
    epoch_loop_bestDevScore "best" (scores.take k) init_state
  have hiff1 : best_write_at scores k ↔ (scores.take k).foldl max 0 < scores[k] := by
    unfold best_write_at
    rw [hstep, epoch_step_writes_length, hbest]
    by_cases h : (scores.take k).foldl max 0 < scores[k] <;> simp [h]
  have hgk : scores.getD k 0 = scores[k] := List.getD_eq_getElem scores 0 hk
  rw [hiff1]
  constructor
  · intro h
    refine ⟨?_, ?_⟩
    · rw [hgk]
      exact lt_of_le_of_lt (le_foldl_max (scores.take k) 0) h
    · intro j hj
      have hjlen : j < scores.length := lt_trans hj hk
      have hjtake : j < (scores.take k).length := by
        rw [List.length_take]
        omega
      have hmem : scores[j] ∈ scores.take k := by
        have hjt : (scores.take k)[j] = scores[j] := List.getElem_take scores
        rw [← hjt]
        exact (scores.take k).getElem_mem hjtake
      rw [List.getD_eq_getElem scores 0 hjlen, hgk]
      exact lt_of_le_of_lt (mem_le_foldl_max (scores.take k) 0 scores[j] hmem) h
  · rintro ⟨h0, h⟩
    rw [hgk] at h0
    refine foldl_max_lt (scores.take k) 0 scores[k] h0 ?_
    intro a ha
    obtain ⟨i, hi, hia⟩ := List.mem_iff_getElem.mp ha
    have hik : i < k := by
      have := hi
      rw [List.length_take] at this
      omega
    have hilen : i < scores.length := lt_trans hik hk
    have hval : a = scores[i] := by
      rw [← hia]
      exact List.getElem_take scores
    have := h i hik
    rw [List.getD_eq_getElem scores 0 hilen, hgk] at this
    rw [hval]
    exact this

theorem best_ckpt_write_iff_amended_witness :
    2 < ([1, 2, 3] : List ℚ).length ∧
    (best_write_at [1, 2, 3] 2 ↔
      (0 < ([1, 2, 3] : List ℚ).getD 2 0 ∧
        ∀ j, j < 2 → ([1, 2, 3] : List ℚ).getD j 0 < ([1, 2, 3] : List ℚ).getD 2 0)) :=
  ⟨by decide, best_ckpt_write_iff_amended [1, 2, 3] 2 (by decide)⟩

lemma epoch_loop_writes_of_ne (ckpt : String) (h : (ckpt == "best") = false) :
    ∀ (scores : List ℚ) (st : TrainState),
      (epoch_loop ckpt scores st).writes = st.writes := by
  intro scores
  induction scores with
  | nil => intro st; rfl
  | cons s t ih =>
      intro st
      show (epoch_loop ckpt t (epoch_step ckpt st s)).writes = _
      rw [ih]
      unfold epoch_step
      by_cases hlt : st.bestDevScore < s <;> simp [hlt, h]

/-- C5: within one `train` call under checkpoint policy "last" (visualize
flag false — with the flag set, the run instead aborts inside the
`compute_hidden` pass of line 160 before any write), exactly one
checkpoint-file write occurs, it is the very last file event of the run
(after the final epoch completes), and the epoch loop itself performs no
best-score checkpoint write, regardless of how the dev scores evolve. -/
theorem last_policy_single_ckpt_write (scores : List ℚ) :
    (train_writes "last" scores).filter FileWrite.isCkpt
        = [FileWrite.ckptFile "last"] ∧
    (train_writes "last" scores).getLast? = some (FileWrite.ckptFile "last") ∧
    (epoch_loop "last" scores init_state).writes = [] := by
  have h0 : (epoch_loop "last" scores init_state).writes = [] :=
    epoch_loop_writes_of_ne "last" (by decide) scores init_state
  have hw : train_writes "last" scores = [FileWrite.ckptFile "last"] := by
    unfold train_writes
    rw [h0]
    rfl
  refine ⟨?_, ?_, h0⟩
  · rw [hw]
    rfl
  · rw [hw]
    rfl

lemma epoch_loop_writes_all_ckpt (ckpt : String) :
    ∀ (scores : List ℚ) (st : TrainState),
      st.writes.all FileWrite.isCkpt = true →
      (epoch_loop ckpt scores st).writes.all FileWrite.isCkpt = true := by
  intro scores
  induction scores with
  | nil => intro st h; exact h
  | cons s t ih =>
      intro st h
      show (epoch_loop ckpt t (epoch_step ckpt st s)).writes.all FileWrite.isCkpt = true
      refine ih (epoch_step ckpt st s) ?_
      unfold epoch_step
      by_cases hlt : st.bestDevScore < s
      · rw [if_pos hlt]
        simp only [List.all_append, h, Bool.true_and]
        by_cases hc : (ckpt == "best") = true <;> simp [hc, FileWrite.isCkpt]
      · rw [if_neg hlt]
        exact h

/-- C9: a `train` call with the visualize flag set to `False` (the runs
`train_writes` traces: the hidden-state capture, array persistence and
plotting blocks are all skipped) writes no file under `./hidden_states` or
`./visualization`: every file event of its trace is a checkpoint-file
write. -/
theorem no_vis_writes_when_disabled (ckpt : String) (scores : List ℚ) :
    (train_writes ckpt scores).all FileWrite.isCkpt = true := by
  unfold train_writes
  simp only [List.all_append]
  have h1 := epoch_loop_writes_all_ckpt ckpt scores init_state (by rfl)
  rw [h1]
  by_cases hc : (ckpt == "last") = true <;> simp [hc, FileWrite.isCkpt]

lemma epoch_loop_nonpos :
    ∀ (scores : List ℚ), (∀ s ∈ scores, s ≤ 0) →
      epoch_loop "best" scores init_state = init_state := by
  intro scores
  induction scores with
  | nil => intro _; rfl
  | cons s t ih =>
      intro h
      show epoch_loop "best" t (epoch_step "best" init_state s) = init_state
      have hstep : epoch_step "best" init_state s = init_state := by
        unfold epoch_step
        rw [if_neg]
        exact not_lt.mpr (h s (List.mem_cons_self s t))
      rw [hstep]
      exact ih (fun a ha => h a (List.mem_cons_of_mem s ha))

/-- C10: under checkpoint policy "best" (visualize flag false), `best_dev_score`
starts at 0 and a checkpoint is saved only on a strictly greater dev score,
so a run in which no epoch's dev score strictly exceeds 0 writes no
checkpoint file; the unconditional `torch.load` of the best checkpoint after
the loop then fails with an uncaught `FileNotFoundError` instead of
returning the model. -/
theorem best_policy_missing_ckpt_error (scores : List ℚ)
    (h : ∀ s ∈ scores, s ≤ 0) :
    (train_writes "best" scores).all (fun w => ! w.isCkpt) = true ∧
    train_run "best" scores = Except.error "FileNotFoundError" := by
  have hw : train_writes "best" scores = [] := by
    unfold train_writes
    rw [epoch_loop_nonpos scores h]
    rfl
  constructor
  · rw [hw]
    rfl
  · unfold train_run
    rw [hw]
    rfl

theorem best_policy_missing_ckpt_error_witness :
    (∀ s ∈ ([0] : List ℚ), s ≤ 0) ∧
    ((train_writes "best" [0]).all (fun w => ! w.isCkpt) = true ∧
      train_run "best" [0] = Except.error "FileNotFoundError") :=
  ⟨by decide, best_policy_missing_ckpt_error [0] (by decide)⟩

/-- Lines 144-147 of `Trainer.train`: a dataset split named `key` is put
into the joint evaluation dataloader iff `key.split("-")[0] == "dev"`;
`key.split("-")[0]` is the prefix of `key` before its first `'-'` (the whole
key when it has none), embedded here over the key's character list. -/
def is_dev_split (key : List Char) : Bool :=
  key.takeWhile (fun c => c != '-') == String.toList "dev"

/-- The keys of `eval_dataloader` built by lines 144-147 of `Trainer.train`
from the split names of the wrapped dataset. -/
def eval_split_keys (keys : List (List Char)) : List (List Char) :=
  keys.filter is_dev_split

lemma is_dev_split_iff (key : List Char) :
    is_dev_split key = true ↔
      (key = String.toList "dev" ∨ key.take 4 = String.toList "dev-") := by
  unfold is_dev_split
  rw [show String.toList "dev" = ['d', 'e', 'v'] from rfl,
    show String.toList "dev-" = ['d', 'e', 'v', '-'] from rfl]
  constructor
  · intro h
    have htw : key.takeWhile (fun c => c != '-') = ['d', 'e', 'v'] := beq_iff_eq.mp h
    obtain ⟨t, ht⟩ := List.takeWhile_prefix (l := key) (fun c => c != '-')
    rw [htw] at ht
    rcases t with _ | ⟨c, t'⟩
    · left
      rw [← ht]
      rfl
    · right
      subst ht
      simp only [List.cons_append, List.nil_append] at htw ⊢
      simp only [List.takeWhile_cons] at htw
      norm_num at htw
      by_cases hc : c = '-'
      · subst hc
        rfl
      · rw [if_neg (by decide : ¬('d' = '-')), if_neg (by decide : ¬('e' = '-')),
          if_neg (by decide : ¬('v' = '-')), if_neg hc] at htw
        simp at htw
  · intro h
    rcases h with h | h
    · subst h
      rfl
    · have hk : key = ['d', 'e', 'v', '-'] ++ key.drop 4 := by
        rw [← h]
        exact (List.take_append_drop 4 key).symm
      rw [hk]
      rfl

/-- C6: a dataset split is included in the joint per-epoch evaluation iff
the prefix of its name before the first `'-'` equals `"dev"` — equivalently
the name is `"dev"` itself or starts with `"dev-"`; in particular `dev-a`
and `dev-b` are both included and `development` is excluded. -/
theorem dev_split_selection :
    (∀ (keys : List (List Char)) (key : List Char),
        key ∈ eval_split_keys keys ↔
          key ∈ keys ∧
            (key = String.toList "dev" ∨ key.take 4 = String.toList "dev-")) ∧
    eval_split_keys
        [String.toList "dev-a", String.toList "dev-b", String.toList "development"]
      = [String.toList "dev-a", String.toList "dev-b"] := by
  constructor
  · intro keys key
    unfold eval_split_keys
    rw [List.mem_filter, is_dev_split_iff]
  · rfl

/-- One batch of the unshuffled training dataloader used by
`compute_hidden`: its ground-truth labels, its poison labels, the rows of
the last-layer hidden-state tensor (line 238), and the pooled per-example
vectors (lines 239-248), one rational per example here. -/
structure Batch where
  labels : List ℤ
  poison_labels : List ℤ
  last_hidden : List (List ℚ)
  pooled : List ℚ

/-- A value the Python variable `hidden_state` of `compute_hidden` can hold:
the accumulator list it is initialised to at line 229, or the last-layer
tensor it is rebound to at line 238. -/
inductive PyObj where
  | pyList (xs : List ℚ)
  | tensor (t : List (List ℚ))
  deriving DecidableEq

/-- Python attribute dispatch for `hidden_state.extend(...)` at line 249: a
list extends in place; a tensor has no `extend` attribute, so the call
raises `AttributeError`. -/
def PyObj.extend (o : PyObj) (ys : List ℚ) : Except String PyObj :=
  match o with
  | .pyList xs => .ok (.pyList (xs ++ ys))
  | .tensor _ => .error "AttributeError"

/-- The loop body of `compute_hidden` (lines 232-249): extend the label and
poison-label accumulators, rebind `hidden_state` to the last-layer tensor
(line 238), compute the pooled output, then call `hidden_state.extend` on
the rebound variable. -/
def compute_hidden_step (st : PyObj × List ℤ × List ℤ) (b : Batch) :
    Except String (PyObj × List ℤ × List ℤ) := do
  let labels := st.2.1 ++ b.labels
  let poison_labels := st.2.2 ++ b.poison_labels
  let hidden_state := PyObj.tensor b.last_hidden
  let hidden_state ← hidden_state.extend b.pooled
  return (hidden_state, labels, poison_labels)

/-- Training / evaluation mode of the victim model. -/
inductive Mode where
  | trainMode
  | evalMode
  deriving DecidableEq

/-- Lines 226-251, `Trainer.compute_hidden`: the model is put in eval mode,
the batches are folded over `compute_hidden_step`, and on normal return the
model is put back in train mode (line 250) and the three accumulators are
returned. -/
def compute_hidden (batches : List Batch) :
    Except String (PyObj × List ℤ × List ℤ × Mode) := do
  let st ← batches.foldlM compute_hidden_step
    (PyObj.pyList [], ([] : List ℤ), ([] : List ℤ))
  return (st.1, st.2.1, st.2.2, Mode.trainMode)

/-- C8 (code bug): on a dataloader with a batch, `compute_hidden` raises
`AttributeError` at the first batch — line 238 rebinds the accumulator
`hidden_state` to the last-layer tensor, so the `.extend` call of line 249
dispatches on a tensor — instead of returning three parallel sequences with
the model back in training mode; shown at a one-batch, one-example
dataloader. -/
theorem compute_hidden_raises :
    compute_hidden
        [{ labels := [1], poison_labels := [0], last_hidden := [[1, 2]], pooled := [3] }]
      = Except.error "AttributeError" := rfl

/-- The Python elements that `list.extend(x)` iterates when `x` is a value
of `hidden_state`'s type: a list contributes its entries; a tensor would be
iterated row by row (flattened to per-example vectors here — the branch is
unreachable, since a `compute_hidden` pass over a nonempty dataloader raises
before returning). -/
def PyObj.elems : PyObj → List ℚ
  | .pyList xs => xs
  | .tensor t => t.flatten

/-- Lines 160 and 168-170 of `Trainer.train` with visualization enabled:
`self.hidden_state` is initialised to the result of a baseline
`compute_hidden` pass over the unshuffled training split before any epoch
runs, and after each of the `epochs` epochs the result of another pass over
the same dataloader is appended to it with
`self.hidden_state.extend(hidden_state)`; the resulting history is what
line 184 hands to `Trainer.visualize`. -/
def train_hidden_history (batches : List Batch) (epochs : ℕ) :
    Except String PyObj := do
  let st ← compute_hidden batches
  (List.range epochs).foldlM
    (fun acc _ => do
      let st2 ← compute_hidden batches
      acc.extend st2.1.elems)
    st.1

/-- C7 (code bug): a visualization-enabled `train` call raises
`AttributeError` inside the baseline `compute_hidden` pass of line 160 on
any training split with a batch, before any epoch runs: no hidden-state
history is ever accumulated or handed to `visualize`, so in particular none
of length `epochs × n`; shown at one epoch over a one-batch, one-example
split.  (Were `compute_hidden` repaired, the loop structure would hand
`visualize` `epochs + 1` full snapshots — a baseline plus one per epoch —
not `epochs`.) -/
theorem train_hidden_history_raises :
    train_hidden_history
        [{ labels := [1], poison_labels := [0], last_hidden := [[1, 2]], pooled := [3] }] 1
      = Except.error "AttributeError" := rfl
